import Mathlib

/-!
Verification of the termscp encrypted-profile persistence layer:
`src/system/bookmarks_client.rs` (`BookmarksClient`: bookmarks, bounded
recents cache, key lifecycle, password encryption) and
`src/system/config_client.rs` (`ConfigClient`: settings plus SSH key vault).

Modelling conventions:
- `HashMap<String, V>` is modelled as an association list with the usual
  get/insert/remove operations (`alGet`, `alInsert`, `alRemove`).  Insert
  overwrites the entry with the same key, as `HashMap::insert` does.
- `u16` ports are modelled as `Nat` (no arithmetic is performed on them).
- Rust `String` ordering (`keys.sort()`) is byte-lexicographic; it is
  modelled by `strLe`, lexicographic comparison of the character lists
  (UTF-8 byte order and scalar-value order agree).
- The external collaborators (serializer, AES codec, protocol enum
  string mapping, clock, randomness) are passed as explicit parameters,
  matching the spec which places them out of scope.
- File-system effects are modelled by small world records (`BWorld`,
  `CWorld`); a missing file is `none`.  A Rust panic is modelled by
  an `Option`/`Except`-style result carrying the unmodified state.
-/

namespace Termscp

/-! ### Association-list model of `HashMap<String, V>` -/

/-- Model of `HashMap::get`: the value stored under key `k`, if any. -/
def alGet {α : Type} (m : List (String × α)) (k : String) : Option α :=
  match m with
  | [] => none
  | e :: es => if e.1 = k then some e.2 else alGet es k

/-- Model of `HashMap::contains_key`. -/
def alContainsKey {α : Type} (m : List (String × α)) (k : String) : Bool :=
  (alGet m k).isSome

/-- Model of `HashMap::insert`: overwrites the entry with key `k` if present,
otherwise adds a new entry. -/
def alInsert {α : Type} (m : List (String × α)) (k : String) (v : α) :
    List (String × α) :=
  if alContainsKey m k then
    m.map (fun e => if e.1 = k then (k, v) else e)
  else m ++ [(k, v)]

/-- Model of `HashMap::remove` (the removed value is recovered with `alGet`).
Removes every entry stored under `k` — at most one in a well-formed
map. -/
def alRemove {α : Type} (m : List (String × α)) (k : String) :
    List (String × α) :=
  match m with
  | [] => []
  | e :: es => if e.1 = k then alRemove es k else e :: alRemove es k

/-- Model of `HashMap::keys`. -/
def alKeys {α : Type} (m : List (String × α)) : List String :=
  m.map Prod.fst

/-- Model of `HashMap::values().any(|v| v == b)`: structural-equality membership
test over the stored values. -/
def hasValue {α : Type} [DecidableEq α] (m : List (String × α)) (b : α) : Bool :=
  m.any (fun e => decide (e.2 = b))

/-! ### Rust `String` ordering and `Vec::sort` -/

/-- Lexicographic comparison of character lists; models Rust's `Ord` on
`String` (byte-lexicographic, which agrees with scalar-value order). -/
def charListLe : List Char → List Char → Bool
  | [], _ => true
  | _ :: _, [] => false
  | x :: xs, y :: ys =>
    if x < y then true else if y < x then false else charListLe xs ys

/-- Model of `a <= b` for Rust strings. -/
def strLe (a b : String) : Bool := charListLe a.data b.data

/-- One insertion step of insertion sort with respect to `strLe`. -/
def orderedIns (x : String) : List String → List String
  | [] => [x]
  | y :: ys => if strLe x y then x :: y :: ys else y :: orderedIns x ys

/-- Model of `keys.sort()`: ascending byte-lexicographic sort, so the
chronologically oldest (smallest) timestamp key comes first. -/
def sortKeys : List String → List String
  | [] => []
  | x :: xs => orderedIns x (sortKeys xs)

/-! ### Data model: `Bookmark` and `UserHosts`

Modelled from the spec: the `Bookmark` struct (`HostEntry` of spec §3)
and the `UserHosts` container live in `crate::bookmarks`, outside the
given sources; their fields are fixed by spec §3 and by every use in
`bookmarks_client.rs`. -/

structure Bookmark where
  address : String
  port : Nat
  username : String
  protocol : String
  password : Option String
deriving DecidableEq

structure UserHosts where
  bookmarks : List (String × Bookmark)
  recents : List (String × Bookmark)
deriving DecidableEq

/-- Model of `UserHosts::default()`: empty bookmark and recent maps. -/
def default_hosts : UserHosts := { bookmarks := [], recents := [] }

/-- The file-transfer protocol enum; its string mapping is an external
collaborator, passed to the operations as `fromStr`.  The constructors
are the ones used by the sources; only `Sftp` (the hard-coded fallback)
matters here. -/
inductive FileTransferProtocol where
  | Sftp
  | Scp
  | Ftp (secure : Bool)
deriving DecidableEq

/-- The in-memory state of `BookmarksClient` (the `bookmarks_file` path
is fixed by the surrounding world and not repeated here). -/
structure BookmarksClient where
  hosts : UserHosts
  key : String
  recents_size : Nat
deriving DecidableEq

/-! ### BookmarksClient operations (from `bookmarks_client.rs`)

`encrypt key plaintext` models `crypto::aes128_b64_crypt` (total) and
`decrypt key secret` models `crypto::aes128_b64_decrypt` (`none` on any
decode failure); both are external capabilities per spec §4.2.  The
`protocol` string argument of the constructors stands for
`protocol.to_string()` of the external enum. -/

/-- Model of `BookmarksClient::make_bookmark`: build an entry, encrypting the
password when one is provided. -/
def make_bookmark (encrypt : String → String → String) (st : BookmarksClient)
    (addr : String) (port : Nat) (protocol username : String)
    (password : Option String) : Bookmark :=
  { address := addr
    port := port
    username := username
    protocol := protocol
    password :=
      match password with
      | some p => some (encrypt st.key p)
      | none => none }

/-- Model of `BookmarksClient::get_bookmark`: look up by name; parse failures of
the protocol fall back to `Sftp`; decryption failures of the password
yield `none` for the password field only. -/
def get_bookmark (fromStr : String → Option FileTransferProtocol)
    (decrypt : String → String → Option String) (st : BookmarksClient)
    (key : String) :
    Option (String × Nat × FileTransferProtocol × String × Option String) :=
  match alGet st.hosts.bookmarks key with
  | none => none
  | some entry =>
    some (entry.address, entry.port,
      (match fromStr entry.protocol with
       | some proto => proto
       | none => FileTransferProtocol.Sftp),
      entry.username,
      (match entry.password with
       | some pwd =>
         match decrypt st.key pwd with
         | some decrypted_pwd => some decrypted_pwd
         | none => none
       | none => none))

/-- Model of `BookmarksClient::add_bookmark`.  The source panics on an empty
name before touching any state; the panic is modelled as `Except.error`
carrying the (unchanged) state at the moment of the panic. -/
def add_bookmark (encrypt : String → String → String) (st : BookmarksClient)
    (name addr : String) (port : Nat) (protocol username : String)
    (password : Option String) : Except BookmarksClient BookmarksClient :=
  if name.isEmpty then Except.error st
  else
    let host := make_bookmark encrypt st addr port protocol username password
    let bookmarks := alInsert st.hosts.bookmarks name host
    Except.ok { st with hosts := { st.hosts with bookmarks := bookmarks } }

/-- Model of `BookmarksClient::del_bookmark`. -/
def del_bookmark (st : BookmarksClient) (name : String) : BookmarksClient :=
  let bookmarks := alRemove st.hosts.bookmarks name
  { st with hosts := { st.hosts with bookmarks := bookmarks } }

/-- Model of `BookmarksClient::get_recent` (recents never carry a password). -/
def get_recent (fromStr : String → Option FileTransferProtocol)
    (st : BookmarksClient) (key : String) :
    Option (String × Nat × FileTransferProtocol × String) :=
  match alGet st.hosts.recents key with
  | none => none
  | some entry =>
    some (entry.address, entry.port,
      (match fromStr entry.protocol with
       | some proto => proto
       | none => FileTransferProtocol.Sftp),
      entry.username)

/-- The eviction loop of `add_recent`: walk the sorted key list,
removing entries until the map length drops below `size` (or the keys
run out). -/
def evictOldest (size : Nat) : List String → List (String × Bookmark) →
    List (String × Bookmark)
  | [], m => m
  | k :: ks, m =>
    if (alRemove m k).length < size then alRemove m k
    else evictOldest size ks (alRemove m k)

/-- Model of `BookmarksClient::add_recent`.  `now` stands for the timestamp key
`fmt_time(SystemTime::now(), "ISO%Y%m%dT%H%M%S")`, supplied by the
ambient clock. -/
def add_recent (encrypt : String → String → String) (st : BookmarksClient)
    (now addr : String) (port : Nat) (protocol username : String) :
    BookmarksClient :=
  let host : Bookmark := make_bookmark encrypt st addr port protocol username none
  if hasValue st.hosts.recents host then st
  else
    let recents :=
      if st.hosts.recents.length ≥ st.recents_size then
        evictOldest st.recents_size (sortKeys (alKeys st.hosts.recents))
          st.hosts.recents
      else st.hosts.recents
    { st with hosts := { st.hosts with recents := alInsert recents now host } }

/-- Model of `BookmarksClient::del_recent`. -/
def del_recent (st : BookmarksClient) (name : String) : BookmarksClient :=
  let recents := alRemove st.hosts.recents name
  { st with hosts := { st.hosts with recents := recents } }

/-! ### Persistence: key file and bookmarks file

`BWorld β` is the slice of the file system a `BookmarksClient` touches:
the key file and the bookmarks file (paths are fixed, so each is a
single `Option` slot; `none` = the file does not exist).  `β` is the
wire representation produced by the external `BookmarkSerializer`. -/

structure BWorld (β : Type) where
  keyFile : Option String
  bookFile : Option β
deriving DecidableEq

/-- Modelled from the spec: `random_alphanumeric_with_len` lives in
`crate::utils::random`, outside the given sources; per spec §4.1 it
returns a random alphanumeric string of the requested length.  The
model fixes one admissible outcome of the randomness. -/
def random_alphanumeric_with_len (n : Nat) : String :=
  String.mk (List.replicate n 'a')

/-- Model of `BookmarksClient::load_key`: the entire file contents are the key
(only called when the file exists). -/
def load_key {β : Type} (w : BWorld β) : Option String := w.keyFile

/-- Model of `BookmarksClient::generate_key`: generate a 256-character key and
write it to the key file.  `permFail` is the outcome of the best-effort
`set_permissions` call, whose error the source discards with `let _ =`
(so the result cannot depend on it). -/
def generate_key {β : Type} (permFail : Bool) (w : BWorld β) :
    String × BWorld β :=
  let key := random_alphanumeric_with_len 256
  let _ := permFail
  (key, { w with keyFile := some key })

/-- Model of `BookmarksClient::write_bookmarks` (`persist()` of the spec):
serialize the full in-memory state to the bookmarks file, truncating
prior content. -/
def write_bookmarks {β : Type} (serialize : UserHosts → β)
    (st : BookmarksClient) (w : BWorld β) : BWorld β :=
  { w with bookFile := some (serialize st.hosts) }

/-- Model of `BookmarksClient::read_bookmarks`: deserialize the bookmarks file
and replace the in-memory state; `none` on open or deserialize failure. -/
def read_bookmarks {β : Type} (deserialize : β → Option UserHosts)
    (st : BookmarksClient) (w : BWorld β) : Option BookmarksClient :=
  match w.bookFile with
  | none => none
  | some blob =>
    match deserialize blob with
    | some hosts => some { st with hosts := hosts }
    | none => none

/-- Model of `BookmarksClient::new` (`open` of the spec): load the key if the
key file exists, otherwise generate and write one; then bootstrap the
bookmarks file if absent, or load it.  `none` models a construction
error (`SerializerError`). -/
def BookmarksClient.new {β : Type} (serialize : UserHosts → β)
    (deserialize : β → Option UserHosts) (permFail : Bool) (w : BWorld β)
    (recents_size : Nat) : Option (BookmarksClient × BWorld β) :=
  let kw : String × BWorld β :=
    match load_key w with
    | some key => (key, w)
    | none => generate_key permFail w
  let client : BookmarksClient :=
    { hosts := default_hosts, key := kw.1, recents_size := recents_size }
  match kw.2.bookFile with
  | none => some (client, write_bookmarks serialize client kw.2)
  | some _ =>
    match read_bookmarks deserialize client kw.2 with
    | some loaded => some (loaded, kw.2)
    | none => none

/-! ### ConfigClient (from `config_client.rs`)

Modelled from the spec: `UserConfig` and its components live in
`crate::config`, outside the given sources; the fields are the ones the
client reads and writes (spec §3 "Settings" and the vault map). -/

structure UserInterfaceConfig where
  text_editor : String
  default_protocol : String
  show_hidden_files : Bool
  group_dirs : Option String
deriving DecidableEq

structure RemoteConfig where
  ssh_keys : List (String × String)
deriving DecidableEq

structure UserConfig where
  user_interface : UserInterfaceConfig
  remote : RemoteConfig
deriving DecidableEq

/-- The in-memory state of `ConfigClient`. -/
structure ConfigClient where
  config : UserConfig
  config_path : String
  ssh_key_dir : String
deriving DecidableEq

/-- Result of a fallible `ConfigClient` operation (`SerializerError` of
kind `IoError`, or the `Ok` payload). -/
inductive OpResult (α : Type) where
  | ok (a : α)
  | ioError (msg : String)
deriving DecidableEq

/-- The slice of the file system a `ConfigClient` touches: the config
file (wire type `β`, produced by the external `ConfigSerializer`) and
the SSH key files, addressed by path. -/
structure CWorld (β : Type) where
  cfgFile : Option β
  files : String → Option String

/-- Model of `ConfigClient::make_ssh_host_key`: vault keys are
`format!("{}@{}", username, host)`. -/
def make_ssh_host_key (host username : String) : String :=
  username ++ "@" ++ host

/-- Rust `str::split(sep)` on a single separator character, keeping
empty pieces (so the result is always non-empty). -/
def splitOnChar (c : Char) : List Char → List (List Char)
  | [] => [[]]
  | x :: xs =>
    if x = c then [] :: splitOnChar c xs
    else
      match splitOnChar c xs with
      | [] => [[x]]
      | t :: ts => (x :: t) :: ts

/-- Model of `ConfigClient::get_ssh_tokens`: split the vault key on `'@'` and
`assert` exactly two tokens, returning `(host, username)`.  The failed
assertion (a panic) is modelled as `none`. -/
def get_ssh_tokens (host_key : String) : Option (String × String) :=
  match splitOnChar '@' host_key.data with
  | [t0, t1] => some (String.mk t1, String.mk t0)
  | _ => none

/-- Model of `ConfigClient::write_config`: serialize the whole configuration to
the config file, truncating prior content. -/
def write_config {β : Type} (serialize : UserConfig → β) (st : ConfigClient)
    (w : CWorld β) : CWorld β :=
  { w with cfgFile := some (serialize st.config) }

/-- Model of `std::fs::remove_file`: fails (`none`) when the file is absent. -/
def remove_file {β : Type} (w : CWorld β) (path : String) :
    Option (CWorld β) :=
  match w.files path with
  | none => none
  | some _ => some { w with files := fun p => if p = path then none else w.files p }

/-- Replace the vault map inside a `ConfigClient`. -/
def setSshKeys (st : ConfigClient) (m : List (String × String)) : ConfigClient :=
  { st with config := { st.config with remote := { ssh_keys := m } } }

/-- Model of `ConfigClient::add_ssh_key`: write the key material to
`{ssh_key_dir}/{username}@{host}.key`, register the path in the vault,
then persist the configuration. -/
def add_ssh_key {β : Type} (serialize : UserConfig → β) (st : ConfigClient)
    (w : CWorld β) (host username ssh_key : String) :
    ConfigClient × CWorld β :=
  let host_name := make_ssh_host_key host username
  let ssh_key_path := st.ssh_key_dir ++ "/" ++ host_name ++ ".key"
  let w2 : CWorld β :=
    { w with files := fun p => if p = ssh_key_path then some ssh_key else w.files p }
  let st2 := setSshKeys st (alInsert st.config.remote.ssh_keys host_name ssh_key_path)
  (st2, write_config serialize st2 w2)

/-- Model of `ConfigClient::del_ssh_key`: no-op `Ok` when the vault key is
absent; otherwise remove the vault entry, unlink the backing file
(`ioError` on failure, with the entry already gone from memory and the
configuration not yet persisted), then persist the configuration. -/
def del_ssh_key {β : Type} (serialize : UserConfig → β) (st : ConfigClient)
    (w : CWorld β) (host username : String) :
    ConfigClient × CWorld β × OpResult Unit :=
  match alGet st.config.remote.ssh_keys (make_ssh_host_key host username) with
  | none => (st, w, OpResult.ok ())
  | some key_path =>
    let st2 := setSshKeys st
      (alRemove st.config.remote.ssh_keys (make_ssh_host_key host username))
    match remove_file w key_path with
    | none => (st2, w, OpResult.ioError "could not remove file")
    | some w2 => (st2, write_config serialize st2 w2, OpResult.ok ())

/-- Model of `ConfigClient::get_ssh_key`: despite the `io::Result` signature the
body is a pure map lookup that never constructs an `Err`; it panics
(outer `none`) when a present key fails the two-token assertion of
`get_ssh_tokens`. -/
def get_ssh_key (st : ConfigClient) (mkey : String) :
    Option (OpResult (Option (String × String × String))) :=
  match alGet st.config.remote.ssh_keys mkey with
  | none => some (OpResult.ok none)
  | some key_path =>
    match get_ssh_tokens mkey with
    | none => none
    | some hu => some (OpResult.ok (some (hu.1, hu.2, key_path)))

/-! ### Auxiliary definitions used by the statements -/

/-- Remove the entries stored under each key of `ks` in order (used to
describe what the eviction loop of `add_recent` removes). -/
def removeAll (m : List (String × Bookmark)) (ks : List String) :
    List (String × Bookmark) :=
  ks.foldl alRemove m

/-- Every character of the string is alphanumeric. -/
def isAlphanumStr (s : String) : Bool := s.data.all Char.isAlphanum

/-- A freshly bootstrapped client (empty hosts) with the given recents
capacity, as produced by `BookmarksClient::new` on an empty directory. -/
def fresh_client (size : Nat) : BookmarksClient :=
  { hosts := default_hosts, key := "testkey", recents_size := size }

/-- A freshly bootstrapped `ConfigClient` (empty vault, default
settings). -/
def empty_config : ConfigClient :=
  { config :=
      { user_interface :=
          { text_editor := "nano"
            default_protocol := "SFTP"
            show_hidden_files := false
            group_dirs := none }
        remote := { ssh_keys := [] } }
    config_path := "/home/user/.config/termscp/config.toml"
    ssh_key_dir := "/home/user/.config/termscp/.ssh" }

/-- An empty file-system slice for `ConfigClient`. -/
def empty_cworld : CWorld UserConfig :=
  { cfgFile := none, files := fun _ => none }

/-- A client whose recents cache is exactly at its capacity of 2. -/
def capacity_client : BookmarksClient :=
  { hosts :=
      { bookmarks := []
        recents :=
          [("ISO20210101T010101", ⟨"1.1.1.1", 22, "pi", "SFTP", none⟩),
           ("ISO20210101T010102", ⟨"1.1.1.2", 22, "pi", "SFTP", none⟩)] }
    key := "testkey"
    recents_size := 2 }

/-- A client holding one bookmark with a stored (encrypted) password. -/
def pw_client : BookmarksClient :=
  { hosts :=
      { bookmarks :=
          [("raspberry", ⟨"192.168.1.31", 22, "pi", "SFTP", some "CIPHERTEXT"⟩)]
        recents := [] }
    key := "testkey"
    recents_size := 16 }

/-- A client whose stored protocol string is not a known protocol. -/
def odd_proto_client : BookmarksClient :=
  { hosts :=
      { bookmarks := [("strange", ⟨"192.168.1.31", 22, "pi", "FOOBAR", none⟩)]
        recents := [("ISO20210101T010101", ⟨"192.168.1.31", 22, "pi", "FOOBAR", none⟩)] }
    key := "testkey"
    recents_size := 16 }

/-- A `ConfigClient` holding one well-formed vault entry. -/
def vault_config : ConfigClient :=
  setSshKeys empty_config [("pi@host", "/keys/pi@host.key")]

/-- A file-system slice holding the backing file of `vault_config`. -/
def key_cworld : CWorld UserConfig :=
  { cfgFile := none
    files := fun p => if p = "/keys/pi@host.key" then some "KEYMATERIAL" else none }

/-! ### Map lemmas -/

theorem mem_alRemove {α : Type} (m : List (String × α)) (k : String)
    (e : String × α) : e ∈ alRemove m k ↔ e ∈ m ∧ e.1 ≠ k := by
  induction m with
  | nil => simp [alRemove]
  | cons f fs ih =>
    by_cases h : f.1 = k
    · rw [alRemove, if_pos h, ih]
      constructor
      · rintro ⟨h1, h2⟩
        exact ⟨List.mem_cons_of_mem _ h1, h2⟩
      · rintro ⟨h1, h2⟩
        rcases List.mem_cons.mp h1 with rfl | h1
        · exact absurd h h2
        · exact ⟨h1, h2⟩
    · rw [alRemove, if_neg h]
      constructor
      · intro h1
        rcases List.mem_cons.mp h1 with rfl | h1
        · exact ⟨List.mem_cons_self _ _, h⟩
        · rcases ih.mp h1 with ⟨h2, h3⟩
          exact ⟨List.mem_cons_of_mem _ h2, h3⟩
      · rintro ⟨h1, h2⟩
        rcases List.mem_cons.mp h1 with rfl | h1
        · exact List.mem_cons_self _ _
        · exact List.mem_cons_of_mem _ (ih.mpr ⟨h1, h2⟩)

theorem alInsert_length_le {α : Type} (m : List (String × α)) (k : String)
    (v : α) : (alInsert m k v).length ≤ m.length + 1 := by
  unfold alInsert
  by_cases h : alContainsKey m k = true
  · simp [h]
  · simp [h]

theorem alRemove_of_not_mem {α : Type} (m : List (String × α)) (k : String) :
    k ∉ alKeys m → alRemove m k = m := by
  induction m with
  | nil => intro _; rfl
  | cons e es ih =>
    intro h
    rw [show alKeys (e :: es) = e.1 :: alKeys es from rfl] at h
    have h1 : e.1 ≠ k := fun hk => h (by rw [hk]; exact List.mem_cons_self _ _)
    have h2 : k ∉ alKeys es := fun hk => h (List.mem_cons_of_mem _ hk)
    rw [alRemove, if_neg h1, ih h2]

theorem alRemove_length_succ {α : Type} (m : List (String × α)) (k : String)
    (hnd : (alKeys m).Nodup) (hk : k ∈ alKeys m) :
    (alRemove m k).length + 1 = m.length := by
  induction m with
  | nil => simp [alKeys] at hk
  | cons e es ih =>
    have hnd' := hnd
    rw [show alKeys (e :: es) = e.1 :: alKeys es from rfl, List.nodup_cons] at hnd'
    rw [show alKeys (e :: es) = e.1 :: alKeys es from rfl] at hk
    by_cases h : e.1 = k
    · have hnotin : k ∉ alKeys es := h ▸ hnd'.1
      rw [alRemove, if_pos h, alRemove_of_not_mem es k hnotin]
      rfl
    · have hk2 : k ∈ alKeys es := by
        rcases List.mem_cons.mp hk with h' | h'
        · exact absurd h'.symm h
        · exact h'
      rw [alRemove, if_neg h]
      have := ih hnd'.2 hk2
      simp only [List.length_cons]
      omega

theorem alKeys_alRemove_mem {α : Type} (m : List (String × α)) (k j : String) :
    j ∈ alKeys (alRemove m k) ↔ j ∈ alKeys m ∧ j ≠ k := by
  unfold alKeys
  constructor
  · intro h
    rcases List.mem_map.mp h with ⟨e, he, rfl⟩
    rcases (mem_alRemove m k e).mp he with ⟨h1, h2⟩
    exact ⟨List.mem_map_of_mem _ h1, h2⟩
  · rintro ⟨h1, h2⟩
    rcases List.mem_map.mp h1 with ⟨e, he, rfl⟩
    exact List.mem_map_of_mem _ ((mem_alRemove m k e).mpr ⟨he, h2⟩)

theorem alKeys_alRemove_nodup {α : Type} (m : List (String × α)) (k : String)
    (hnd : (alKeys m).Nodup) : (alKeys (alRemove m k)).Nodup := by
  induction m with
  | nil => simp [alRemove, alKeys]
  | cons e es ih =>
    rw [show alKeys (e :: es) = e.1 :: alKeys es from rfl, List.nodup_cons] at hnd
    by_cases h : e.1 = k
    · rw [alRemove, if_pos h]
      exact ih hnd.2
    · rw [alRemove, if_neg h,
        show alKeys (e :: alRemove es k) = e.1 :: alKeys (alRemove es k) from rfl,
        List.nodup_cons]
      refine ⟨fun hmem => ?_, ih hnd.2⟩
      exact hnd.1 ((alKeys_alRemove_mem es k e.1).mp hmem).1

theorem alGet_alInsert_self {α : Type} (m : List (String × α)) (k : String)
    (v : α) : alGet (alInsert m k v) k = some v := by
  unfold alInsert
  by_cases h : alContainsKey m k = true
  · rw [if_pos h]
    unfold alContainsKey at h
    induction m with
    | nil => simp [alGet] at h
    | cons e es ih =>
      by_cases he : e.1 = k
      · simp [alGet, he]
      · rw [alGet, if_neg he] at h
        simpa [alGet, he] using ih h
  · rw [if_neg h]
    unfold alContainsKey at h
    induction m with
    | nil => simp [alGet]
    | cons e es ih =>
      by_cases he : e.1 = k
      · rw [alGet, if_pos he] at h
        simp at h
      · rw [alGet, if_neg he] at h
        simpa [alGet, he] using ih h

theorem mem_alInsert_self {α : Type} (m : List (String × α)) (k : String)
    (v : α) : (k, v) ∈ alInsert m k v := by
  unfold alInsert
  by_cases h : alContainsKey m k = true
  · rw [if_pos h]
    unfold alContainsKey at h
    induction m with
    | nil => simp [alGet] at h
    | cons e es ih =>
      by_cases he : e.1 = k
      · simp [he]
      · rw [alGet, if_neg he] at h
        simpa [he] using Or.inr (ih h)
  · rw [if_neg h]
    simp

/-! ### Sorting lemmas -/

theorem orderedIns_perm (x : String) (l : List String) :
    (orderedIns x l).Perm (x :: l) := by
  induction l with
  | nil => exact List.Perm.refl _
  | cons y ys ih =>
    by_cases h : strLe x y = true
    · rw [orderedIns, if_pos h]
    · rw [orderedIns, if_neg h]
      exact (ih.cons y).trans (List.Perm.swap x y ys)

theorem sortKeys_perm (l : List String) : (sortKeys l).Perm l := by
  induction l with
  | nil => exact List.Perm.refl _
  | cons x xs ih =>
    exact (orderedIns_perm x (sortKeys xs)).trans (ih.cons x)

theorem charListLe_total (a : List Char) :
    ∀ b, charListLe a b = true ∨ charListLe b a = true := by
  induction a with
  | nil => intro b; left; rfl
  | cons x xs ih =>
    intro b
    cases b with
    | nil => right; rfl
    | cons y ys =>
      by_cases h1 : x < y
      · left; simp [charListLe, h1]
      · by_cases h2 : y < x
        · right; simp [charListLe, h2]
        · rcases ih ys with h | h
          · left; simp [charListLe, h1, h2, h]
          · right; simp [charListLe, h1, h2, h]

theorem charListLe_trans (a : List Char) :
    ∀ b c, charListLe a b = true → charListLe b c = true →
      charListLe a c = true := by
  induction a with
  | nil => intro b c _ _; rfl
  | cons x xs ih =>
    intro b c hab hbc
    cases b with
    | nil => simp [charListLe] at hab
    | cons y ys =>
      cases c with
      | nil => simp [charListLe] at hbc
      | cons z zs =>
        by_cases h1 : x < y
        · by_cases h2 : y < z
          · simp [charListLe, lt_trans h1 h2]
          · by_cases h3 : z < y
            · simp [charListLe, h2, h3] at hbc
            · have hyz : y = z := le_antisymm (not_lt.mp h3) (not_lt.mp h2)
              subst hyz
              simp [charListLe, h1]
        · by_cases h2 : y < x
          · simp [charListLe, h1, h2] at hab
          · have hxy : x = y := le_antisymm (not_lt.mp h2) (not_lt.mp h1)
            subst hxy
            rw [charListLe] at hab ⊢
            rw [if_neg h1, if_neg h2] at hab
            by_cases h3 : x < z
            · rw [if_pos h3]
            · by_cases h4 : z < x
              · rw [charListLe, if_neg h3, if_pos h4] at hbc
                exact absurd hbc (by simp)
              · rw [if_neg h3, if_neg h4]
                rw [charListLe, if_neg h3, if_neg h4] at hbc
                exact ih ys zs hab hbc

theorem strLe_total (a b : String) : strLe a b = true ∨ strLe b a = true :=
  charListLe_total a.data b.data

theorem strLe_trans (a b c : String) (hab : strLe a b = true)
    (hbc : strLe b c = true) : strLe a c = true :=
  charListLe_trans a.data b.data c.data hab hbc

theorem mem_orderedIns (z x : String) (l : List String) :
    z ∈ orderedIns x l ↔ z = x ∨ z ∈ l :=
  (orderedIns_perm x l).mem_iff.trans (by simp)

theorem sorted_orderedIns (x : String) (l : List String)
    (hs : List.Pairwise (fun a b => strLe a b = true) l) :
    List.Pairwise (fun a b => strLe a b = true) (orderedIns x l) := by
  induction l with
  | nil => simp [orderedIns]
  | cons y ys ih =>
    rcases List.pairwise_cons.mp hs with ⟨hy, hys⟩
    by_cases h : strLe x y = true
    · rw [orderedIns, if_pos h]
      refine List.pairwise_cons.mpr ⟨?_, hs⟩
      intro z hz
      rcases List.mem_cons.mp hz with rfl | hz
      · exact h
      · exact strLe_trans x y z h (hy z hz)
    · rw [orderedIns, if_neg h]
      refine List.pairwise_cons.mpr ⟨?_, ih hys⟩
      intro z hz
      rcases (mem_orderedIns z x ys).mp hz with rfl | hz
      · rcases strLe_total z y with h' | h'
        · exact absurd h' h
        · exact h'
      · exact hy z hz

theorem sortKeys_sorted (l : List String) :
    List.Pairwise (fun a b => strLe a b = true) (sortKeys l) := by
  induction l with
  | nil => simp [sortKeys]
  | cons x xs ih => exact sorted_orderedIns x (sortKeys xs) ih

/-! ### Eviction-loop lemmas -/

theorem evictOldest_length_lt (size : Nat) (hs : 1 ≤ size)
    (ks : List String) :
    ∀ m : List (String × Bookmark),
      (∀ e ∈ m, e.1 ∈ ks) → (evictOldest size ks m).length < size := by
  induction ks with
  | nil =>
    intro m hcov
    have hm : m = [] := by
      cases m with
      | nil => rfl
      | cons e es => exact absurd (hcov e (List.mem_cons_self _ _)) (by simp)
    subst hm
    simpa [evictOldest] using hs
  | cons k ks ih =>
    intro m hcov
    by_cases hlt : (alRemove m k).length < size
    · rw [evictOldest, if_pos hlt]
      exact hlt
    · rw [evictOldest, if_neg hlt]
      refine ih (alRemove m k) ?_
      intro e he
      rcases (mem_alRemove m k e).mp he with ⟨h1, h2⟩
      rcases List.mem_cons.mp (hcov e h1) with h3 | h3
      · exact absurd h3 h2
      · exact h3

theorem removeAll_cons (m : List (String × Bookmark)) (k : String)
    (ks : List String) :
    removeAll m (k :: ks) = removeAll (alRemove m k) ks := rfl

theorem evictOldest_eq_removeAll (size : Nat) (hs : 1 ≤ size)
    (ks : List String) :
    ∀ m : List (String × Bookmark),
      ks.Perm (alKeys m) → (alKeys m).Nodup → size ≤ m.length →
      evictOldest size ks m = removeAll m (ks.take (m.length - size + 1)) := by
  induction ks with
  | nil =>
    intro m hperm hnd hge
    have : alKeys m = [] := (hperm.symm).eq_nil
    have hm : m = [] := by
      cases m with
      | nil => rfl
      | cons e es => simp [alKeys] at this
    subst hm
    simp [alKeys] at hge
    omega
  | cons k ks ih =>
    intro m hperm hnd hge
    have hkm : k ∈ alKeys m := hperm.subset (List.mem_cons_self _ _)
    have hlen : (alRemove m k).length + 1 = m.length :=
      alRemove_length_succ m k hnd hkm
    by_cases hlt : (alRemove m k).length < size
    · have hmeq : m.length = size := by omega
      have htake : m.length - size + 1 = 1 := by omega
      rw [evictOldest, if_pos hlt, htake]
      rfl
    · have hge' : size ≤ (alRemove m k).length := by omega
      have hnd2 : (alKeys (alRemove m k)).Nodup := alKeys_alRemove_nodup m k hnd
      have hperm' : ks.Perm (alKeys (alRemove m k)) := by
        have h2 := hperm.erase k
        rw [List.erase_cons_head] at h2
        refine h2.trans ?_
        have hnd' : ((alKeys m).erase k).Nodup := hnd.erase k
        have hiff : ∀ j, j ∈ (alKeys m).erase k ↔ j ∈ alKeys (alRemove m k) := by
          intro j
          rw [List.Nodup.mem_erase_iff hnd, alKeys_alRemove_mem]
          tauto
        exact (List.perm_ext_iff_of_nodup hnd' hnd2).mpr hiff
      have harith : m.length - size + 1 = ((alRemove m k).length - size + 1) + 1 := by
        omega
      rw [evictOldest, if_neg hlt, ih (alRemove m k) hperm' hnd2 hge', harith,
        List.take_succ_cons, removeAll_cons]

/-! ### Further helper lemmas -/

theorem hasValue_of_mem {α : Type} [DecidableEq α] (m : List (String × α))
    (k : String) (v : α) (h : (k, v) ∈ m) : hasValue m v = true := by
  unfold hasValue
  exact List.any_eq_true.mpr ⟨(k, v), h, by simp⟩

theorem alGet_alRemove_self {α : Type} (m : List (String × α)) (k : String) :
    alGet (alRemove m k) k = none := by
  induction m with
  | nil => rfl
  | cons e es ih =>
    by_cases h : e.1 = k
    · rw [alRemove, if_pos h]
      exact ih
    · rw [alRemove, if_neg h, alGet, if_neg h]
      exact ih

theorem add_recent_of_hasValue (encrypt : String → String → String)
    (st : BookmarksClient) (now addr : String) (port : Nat)
    (protocol username : String)
    (h : hasValue st.hosts.recents
      (make_bookmark encrypt st addr port protocol username none) = true) :
    add_recent encrypt st now addr port protocol username = st := by
  simp only [add_recent]
  rw [if_pos h]

theorem add_recent_mem_value (encrypt : String → String → String)
    (st st' : BookmarksClient) (now addr : String) (port : Nat)
    (protocol username : String) :
    hasValue (add_recent encrypt st now addr port protocol username).hosts.recents
      (make_bookmark encrypt st' addr port protocol username none) = true := by
  simp only [add_recent]
  by_cases h : hasValue st.hosts.recents
      (make_bookmark encrypt st addr port protocol username none) = true
  · rw [if_pos h]
    exact h
  · rw [if_neg h]
    show hasValue
      (alInsert
        (if st.hosts.recents.length ≥ st.recents_size then
          evictOldest st.recents_size (sortKeys (alKeys st.hosts.recents))
            st.hosts.recents
        else st.hosts.recents) now
        (make_bookmark encrypt st addr port protocol username none))
      (make_bookmark encrypt st' addr port protocol username none) = true
    exact hasValue_of_mem _ now _ (mem_alInsert_self _ now _)

theorem rand_len (n : Nat) : (random_alphanumeric_with_len n).length = n := by
  show (List.replicate n 'a').length = n
  exact List.length_replicate n 'a'

theorem rand_alnum (n : Nat) :
    isAlphanumStr (random_alphanumeric_with_len n) = true := by
  show (List.replicate n 'a').all Char.isAlphanum = true
  rw [List.all_eq_true]
  intro x hx
  rw [List.eq_of_mem_replicate hx]
  rfl

/-! ### Claims -/

/-- C1, corrected.  The claim as frozen quantifies over every
`recents_size` and every store state; it fails for `recents_size = 0`
(see the counterexample).  Amended statement: for every store with
`recents_size ≥ 1` whose recents cache currently satisfies the bound,
`add_recent` preserves `len(recents) <= recents_size`. -/
theorem c1_recents_bounded_after_add (encrypt : String → String → String)
    (st : BookmarksClient) (now addr : String) (port : Nat)
    (protocol username : String)
    (hsize : 1 ≤ st.recents_size)
    (hlen : st.hosts.recents.length ≤ st.recents_size) :
    (add_recent encrypt st now addr port protocol username).hosts.recents.length
      ≤ st.recents_size := by
  simp only [add_recent]
  by_cases hdup : hasValue st.hosts.recents
      (make_bookmark encrypt st addr port protocol username none) = true
  · rw [if_pos hdup]
    exact hlen
  · rw [if_neg hdup]
    show (alInsert
        (if st.hosts.recents.length ≥ st.recents_size then
          evictOldest st.recents_size (sortKeys (alKeys st.hosts.recents))
            st.hosts.recents
        else st.hosts.recents) now
        (make_bookmark encrypt st addr port protocol username none)).length
      ≤ st.recents_size
    by_cases hcap : st.hosts.recents.length ≥ st.recents_size
    · rw [if_pos hcap]
      have hcov : ∀ e ∈ st.hosts.recents,
          e.1 ∈ sortKeys (alKeys st.hosts.recents) := by
        intro e he
        exact (sortKeys_perm (alKeys st.hosts.recents)).mem_iff.mpr
          (List.mem_map_of_mem _ he)
      have hev := evictOldest_length_lt st.recents_size hsize
        (sortKeys (alKeys st.hosts.recents)) st.hosts.recents hcov
      have hins := alInsert_length_le
        (evictOldest st.recents_size (sortKeys (alKeys st.hosts.recents))
          st.hosts.recents) now
        (make_bookmark encrypt st addr port protocol username none)
      omega
    · rw [if_neg hcap]
      have hins := alInsert_length_le st.hosts.recents now
        (make_bookmark encrypt st addr port protocol username none)
      omega

theorem c1_witness :
    1 ≤ (fresh_client 2).recents_size ∧
    (fresh_client 2).hosts.recents.length ≤ (fresh_client 2).recents_size ∧
    (add_recent (fun _ p => p) (fresh_client 2) "ISO20210101T010101" "1.1.1.1"
      22 "SFTP" "pi").hosts.recents.length ≤ (fresh_client 2).recents_size :=
  ⟨by decide, by decide,
   c1_recents_bounded_after_add (fun _ p => p) (fresh_client 2)
     "ISO20210101T010101" "1.1.1.1" 22 "SFTP" "pi" (by decide) (by decide)⟩

/-- C1 counterexample: with `recents_size = 0`, adding a recent to a
fresh (empty) store still inserts the new entry after the eviction loop
has emptied the map, leaving 1 > 0 entries. -/
theorem c1_counterexample :
    ¬ ((add_recent (fun _ p => p) (fresh_client 0) "ISO20210101T010101"
        "1.1.1.1" 22 "SFTP" "pi").hosts.recents.length
      ≤ (fresh_client 0).recents_size) := by
  decide

/-- C2: when the cache is at or above capacity and the new entry is not
a duplicate, `add_recent` removes exactly the first
`len - recents_size + 1` keys of the ascending (byte-lexicographic,
hence chronological) sort of the keys — the oldest entries, one at a
time, until the new entry fits — and then inserts the new entry; the
sorted key list is ascending and a permutation of the keys.
Concretely, with `recents_size = 2`, adding three distinct recents at
increasing timestamps leaves exactly 2 entries and the first one is
absent. -/
theorem c2_eviction_oldest_first (encrypt : String → String → String)
    (st : BookmarksClient) (now addr : String) (port : Nat)
    (protocol username : String)
    (hnd : (alKeys st.hosts.recents).Nodup)
    (hsize : 1 ≤ st.recents_size)
    (hcap : st.recents_size ≤ st.hosts.recents.length)
    (hdup : hasValue st.hosts.recents
      (make_bookmark encrypt st addr port protocol username none) = false) :
    (add_recent encrypt st now addr port protocol username).hosts.recents =
      alInsert
        (removeAll st.hosts.recents
          ((sortKeys (alKeys st.hosts.recents)).take
            (st.hosts.recents.length - st.recents_size + 1)))
        now (make_bookmark encrypt st addr port protocol username none) ∧
    List.Pairwise (fun a b => strLe a b = true)
      (sortKeys (alKeys st.hosts.recents)) ∧
    (sortKeys (alKeys st.hosts.recents)).Perm (alKeys st.hosts.recents) ∧
    ((add_recent (fun _ p => p)
        (add_recent (fun _ p => p)
          (add_recent (fun _ p => p) (fresh_client 2)
            "ISO20210101T010101" "1.1.1.1" 22 "SFTP" "pi")
          "ISO20210101T010102" "1.1.1.2" 22 "SFTP" "pi")
        "ISO20210101T010103" "1.1.1.3" 22 "SFTP" "pi").hosts.recents.length = 2 ∧
      alGet (add_recent (fun _ p => p)
        (add_recent (fun _ p => p)
          (add_recent (fun _ p => p) (fresh_client 2)
            "ISO20210101T010101" "1.1.1.1" 22 "SFTP" "pi")
          "ISO20210101T010102" "1.1.1.2" 22 "SFTP" "pi")
        "ISO20210101T010103" "1.1.1.3" 22 "SFTP" "pi").hosts.recents
        "ISO20210101T010101" = none) := by
  refine ⟨?_, sortKeys_sorted _, sortKeys_perm _, by decide, by decide⟩
  simp only [add_recent]
  rw [if_neg (by simp [hdup])]
  show alInsert
      (if st.hosts.recents.length ≥ st.recents_size then
        evictOldest st.recents_size (sortKeys (alKeys st.hosts.recents))
          st.hosts.recents
      else st.hosts.recents) now
      (make_bookmark encrypt st addr port protocol username none) =
    alInsert
      (removeAll st.hosts.recents
        ((sortKeys (alKeys st.hosts.recents)).take
          (st.hosts.recents.length - st.recents_size + 1)))
      now (make_bookmark encrypt st addr port protocol username none)
  rw [if_pos hcap, evictOldest_eq_removeAll st.recents_size hsize
    (sortKeys (alKeys st.hosts.recents)) st.hosts.recents
    (sortKeys_perm (alKeys st.hosts.recents)) hnd hcap]

theorem c2_witness :
    ((alKeys capacity_client.hosts.recents).Nodup ∧
      1 ≤ capacity_client.recents_size ∧
      capacity_client.recents_size ≤ capacity_client.hosts.recents.length ∧
      hasValue capacity_client.hosts.recents
        (make_bookmark (fun _ p => p) capacity_client "1.1.1.3" 22 "SFTP" "pi"
          none) = false) ∧
    (add_recent (fun _ p => p) capacity_client "ISO20210101T010103" "1.1.1.3"
        22 "SFTP" "pi").hosts.recents =
      alInsert
        (removeAll capacity_client.hosts.recents
          ((sortKeys (alKeys capacity_client.hosts.recents)).take
            (capacity_client.hosts.recents.length -
              capacity_client.recents_size + 1)))
        "ISO20210101T010103"
        (make_bookmark (fun _ p => p) capacity_client "1.1.1.3" 22 "SFTP" "pi"
          none) :=
  ⟨⟨by decide, by decide, by decide, by decide⟩,
   (c2_eviction_oldest_first (fun _ p => p) capacity_client
     "ISO20210101T010103" "1.1.1.3" 22 "SFTP" "pi" (by decide) (by decide)
     (by decide) (by decide)).1⟩

/-- C4: if a structurally-equal entry (same address, port, protocol
string, username, and no password) already exists among the recents,
`add_recent` returns the store completely unchanged (no insertion, no
eviction); consequently a second `add_recent` with identical parameters
is always a no-op, and adding two recents with identical parameters to
a fresh store yields exactly one recent. -/
theorem c4_duplicate_recent_suppressed (encrypt : String → String → String)
    (st : BookmarksClient) (now now2 addr : String) (port : Nat)
    (protocol username : String) :
    (hasValue st.hosts.recents
        (make_bookmark encrypt st addr port protocol username none) = true →
      add_recent encrypt st now addr port protocol username = st) ∧
    add_recent encrypt (add_recent encrypt st now addr port protocol username)
        now2 addr port protocol username =
      add_recent encrypt st now addr port protocol username ∧
    (add_recent (fun _ p => p)
        (add_recent (fun _ p => p) (fresh_client 16)
          "ISO20210101T010101" "192.168.1.31" 22 "SFTP" "pi")
        "ISO20210101T010102" "192.168.1.31" 22 "SFTP" "pi").hosts.recents.length = 1 :=
  ⟨fun h => add_recent_of_hasValue encrypt st now addr port protocol username h,
   add_recent_of_hasValue encrypt
     (add_recent encrypt st now addr port protocol username) now2 addr port
     protocol username
     (add_recent_mem_value encrypt st
       (add_recent encrypt st now addr port protocol username) now addr port
       protocol username),
   by decide⟩

theorem c4_witness :
    hasValue capacity_client.hosts.recents
      (make_bookmark (fun _ p => p) capacity_client "1.1.1.1" 22 "SFTP" "pi"
        none) = true ∧
    add_recent (fun _ p => p) capacity_client "ISO20210101T010109" "1.1.1.1"
      22 "SFTP" "pi" = capacity_client :=
  ⟨by decide,
   (c4_duplicate_recent_suppressed (fun _ p => p) capacity_client
     "ISO20210101T010109" "ISO20210101T010110" "1.1.1.1" 22 "SFTP" "pi").1
     (by decide)⟩

/-- C6: a bookmark whose stored password fails to decrypt with the
current key is still returned by `get_bookmark` with its address, port,
parsed protocol and username, and with the password field `none`; the
lookup itself never fails because of the bad secret. -/
theorem c6_decrypt_failure_isolated
    (fromStr : String → Option FileTransferProtocol)
    (decrypt : String → String → Option String) (st : BookmarksClient)
    (key : String) (entry : Bookmark) (pwd : String)
    (hget : alGet st.hosts.bookmarks key = some entry)
    (hpw : entry.password = some pwd)
    (hdec : decrypt st.key pwd = none) :
    get_bookmark fromStr decrypt st key =
      some (entry.address, entry.port,
        (match fromStr entry.protocol with
         | some proto => proto
         | none => FileTransferProtocol.Sftp),
        entry.username, none) := by
  simp only [get_bookmark, hget, hpw, hdec]

theorem c6_witness :
    (alGet pw_client.hosts.bookmarks "raspberry" =
        some ⟨"192.168.1.31", 22, "pi", "SFTP", some "CIPHERTEXT"⟩ ∧
      (fun _ _ => (none : Option String)) pw_client.key "CIPHERTEXT" = none) ∧
    get_bookmark (fun _ => none) (fun _ _ => none) pw_client "raspberry" =
      some ("192.168.1.31", 22, FileTransferProtocol.Sftp, "pi", none) :=
  ⟨⟨by decide, rfl⟩,
   c6_decrypt_failure_isolated (fun _ => none) (fun _ _ => none) pw_client
     "raspberry" ⟨"192.168.1.31", 22, "pi", "SFTP", some "CIPHERTEXT"⟩
     "CIPHERTEXT" (by decide) rfl rfl⟩

/-- C7: `add_bookmark` with an empty name aborts (modelled as
`Except.error` carrying the state at the panic, which is the unchanged
input state); with a non-empty name it inserts the entry — looking the
name up afterwards yields exactly the freshly made entry, overwriting
any previous one — and a provided password is stored encrypted with the
store key. -/
theorem c7_add_bookmark_empty_name_aborts
    (encrypt : String → String → String) (st : BookmarksClient)
    (name addr : String) (port : Nat) (protocol username : String)
    (password : Option String) (p : String) :
    (name.isEmpty = true →
      add_bookmark encrypt st name addr port protocol username password =
        Except.error st) ∧
    (name.isEmpty = false →
      add_bookmark encrypt st name addr port protocol username password =
        Except.ok { st with hosts := { st.hosts with bookmarks := alInsert st.hosts.bookmarks name (make_bookmark encrypt st addr port protocol username password) } } ∧
      alGet (alInsert st.hosts.bookmarks name
          (make_bookmark encrypt st addr port protocol username password))
        name =
        some (make_bookmark encrypt st addr port protocol username password)) ∧
    (make_bookmark encrypt st addr port protocol username (some p)).password =
      some (encrypt st.key p) := by
  refine ⟨?_, ?_, rfl⟩
  · intro h
    simp only [add_bookmark]
    rw [if_pos h]
  · intro h
    refine ⟨?_, alGet_alInsert_self _ _ _⟩
    simp only [add_bookmark]
    rw [if_neg (by simp [h])]

theorem c7_witness :
    ("" : String).isEmpty = true ∧
    add_bookmark (fun _ p => p) (fresh_client 16) "" "192.168.1.31" 22 "SFTP"
      "pi" (some "mypassword") = Except.error (fresh_client 16) ∧
    ("raspberry" : String).isEmpty = false ∧
    alGet (alInsert (fresh_client 16).hosts.bookmarks "raspberry"
        (make_bookmark (fun _ p => p) (fresh_client 16) "192.168.1.31" 22
          "SFTP" "pi" (some "mypassword")))
      "raspberry" =
      some (make_bookmark (fun _ p => p) (fresh_client 16) "192.168.1.31" 22
        "SFTP" "pi" (some "mypassword")) :=
  ⟨by decide,
   (c7_add_bookmark_empty_name_aborts (fun _ p => p) (fresh_client 16) ""
     "192.168.1.31" 22 "SFTP" "pi" (some "mypassword") "mypassword").1
     (by decide),
   by decide,
   ((c7_add_bookmark_empty_name_aborts (fun _ p => p) (fresh_client 16)
     "raspberry" "192.168.1.31" 22 "SFTP" "pi" (some "mypassword")
     "mypassword").2.1 (by decide)).2⟩

/-- C9 (implicit): a stored entry whose protocol string does not parse
is neither dropped nor an error: `get_bookmark` and `get_recent` return
it with the protocol silently replaced by the default `Sftp`. -/
theorem c9_unknown_protocol_defaults_to_sftp
    (fromStr : String → Option FileTransferProtocol)
    (decrypt : String → String → Option String) (st : BookmarksClient)
    (key : String) (entry : Bookmark) :
    (alGet st.hosts.bookmarks key = some entry →
      fromStr entry.protocol = none →
      ∃ pw, get_bookmark fromStr decrypt st key =
        some (entry.address, entry.port, FileTransferProtocol.Sftp,
          entry.username, pw)) ∧
    (alGet st.hosts.recents key = some entry →
      fromStr entry.protocol = none →
      get_recent fromStr st key =
        some (entry.address, entry.port, FileTransferProtocol.Sftp,
          entry.username)) := by
  constructor
  · intro h1 h2
    simp only [get_bookmark, h1, h2]
    exact ⟨_, rfl⟩
  · intro h1 h2
    simp only [get_recent, h1, h2]

theorem c9_witness :
    (∃ pw, get_bookmark (fun _ => none) (fun _ _ => none) odd_proto_client
        "strange" =
      some ("192.168.1.31", 22, FileTransferProtocol.Sftp, "pi", pw)) ∧
    get_recent (fun _ => none) odd_proto_client "ISO20210101T010101" =
      some ("192.168.1.31", 22, FileTransferProtocol.Sftp, "pi") :=
  ⟨(c9_unknown_protocol_defaults_to_sftp (fun _ => none) (fun _ _ => none)
      odd_proto_client "strange"
      ⟨"192.168.1.31", 22, "pi", "FOOBAR", none⟩).1 (by decide) rfl,
   (c9_unknown_protocol_defaults_to_sftp (fun _ => none) (fun _ _ => none)
      odd_proto_client "ISO20210101T010101"
      ⟨"192.168.1.31", 22, "pi", "FOOBAR", none⟩).2 (by decide) rfl⟩

/-- C10, corrected.  The claim as frozen covers every key "constructed
by this module"; but `make_ssh_host_key` embeds the username verbatim,
so a username containing `'@'` yields a vault key with more than one
`'@'`, on which a present-key lookup panics in `get_ssh_tokens` instead
of returning `Ok` (see the counterexample).  Amended statement:
`get_ssh_key` performs a pure map lookup (no file access appears in its
model) and returns `Ok(none)` for every absent key, and
`Ok(some(host, username, path))` for every present key that splits on
`'@'` into exactly two tokens; no `Err` is ever produced. -/
theorem c10_get_ssh_key_ok (st : ConfigClient) (mkey path : String)
    (t0 t1 : List Char) :
    (alGet st.config.remote.ssh_keys mkey = none →
      get_ssh_key st mkey = some (OpResult.ok none)) ∧
    (alGet st.config.remote.ssh_keys mkey = some path →
      splitOnChar '@' mkey.data = [t0, t1] →
      get_ssh_key st mkey =
        some (OpResult.ok (some (String.mk t1, String.mk t0, path)))) := by
  constructor
  · intro h
    simp only [get_ssh_key, h]
  · intro h1 h2
    simp only [get_ssh_key, h1, get_ssh_tokens, h2]

theorem c10_witness :
    get_ssh_key empty_config "pi@host" = some (OpResult.ok none) ∧
    get_ssh_key vault_config "pi@host" =
      some (OpResult.ok (some ("host", "pi", "/keys/pi@host.key"))) :=
  ⟨(c10_get_ssh_key_ok empty_config "pi@host" "" [] []).1 rfl,
   (c10_get_ssh_key_ok vault_config "pi@host" "/keys/pi@host.key" "pi".data
     "host".data).2 rfl rfl⟩

/-- C10 counterexample: the vault key built by this module from
username `"u@x"` and host `"h"` is `"u@x@h"`; after registering it via
`add_ssh_key`, looking it up panics (modelled as `none`) instead of
returning `Ok`. -/
theorem c10_counterexample :
    make_ssh_host_key "h" "u@x" = "u@x@h" ∧
    get_ssh_key (add_ssh_key (fun c => c) empty_config empty_cworld "h" "u@x"
      "KEYMATERIAL").1 "u@x@h" = none :=
  ⟨rfl, rfl⟩

/-- C8: `del_ssh_key` succeeds as a no-op (state and files unchanged,
nothing persisted) when the vault key is absent; when present, the
vault entry is removed from the in-memory map in every case, and then:
if unlinking the backing file fails, an `ioError` is returned with the
file system (hence the persisted configuration) untouched; if it
succeeds, the file is gone and the configuration is persisted via
`write_config`. -/
theorem c8_del_ssh_key_behaviour {β : Type} (serialize : UserConfig → β)
    (st : ConfigClient) (w : CWorld β) (host username path c : String) :
    (alGet st.config.remote.ssh_keys (make_ssh_host_key host username) =
        none →
      del_ssh_key serialize st w host username = (st, w, OpResult.ok ())) ∧
    (alGet st.config.remote.ssh_keys (make_ssh_host_key host username) =
        some path →
      w.files path = none →
      del_ssh_key serialize st w host username =
        (setSshKeys st (alRemove st.config.remote.ssh_keys (make_ssh_host_key host username)),
          w, OpResult.ioError "could not remove file") ∧
      alGet (alRemove st.config.remote.ssh_keys (make_ssh_host_key host username))
        (make_ssh_host_key host username) = none) ∧
    (alGet st.config.remote.ssh_keys (make_ssh_host_key host username) =
        some path →
      w.files path = some c →
      del_ssh_key serialize st w host username =
        (setSshKeys st (alRemove st.config.remote.ssh_keys (make_ssh_host_key host username)),
          write_config serialize
            (setSshKeys st (alRemove st.config.remote.ssh_keys (make_ssh_host_key host username)))
            { w with files := fun p => if p = path then none else w.files p },
          OpResult.ok ())) := by
  refine ⟨?_, ?_, ?_⟩
  · intro h
    simp only [del_ssh_key, h]
  · intro h1 h2
    refine ⟨?_, alGet_alRemove_self _ _⟩
    simp only [del_ssh_key, h1, remove_file, h2]
  · intro h1 h2
    simp only [del_ssh_key, h1, remove_file, h2]

theorem c8_witness :
    del_ssh_key (fun c => c) empty_config empty_cworld "host" "pi" =
      (empty_config, empty_cworld, OpResult.ok ()) ∧
    del_ssh_key (fun c => c) vault_config empty_cworld "host" "pi" =
      (setSshKeys vault_config (alRemove vault_config.config.remote.ssh_keys (make_ssh_host_key "host" "pi")),
        empty_cworld, OpResult.ioError "could not remove file") ∧
    del_ssh_key (fun c => c) vault_config key_cworld "host" "pi" =
      (setSshKeys vault_config (alRemove vault_config.config.remote.ssh_keys (make_ssh_host_key "host" "pi")),
        write_config (fun c => c)
          (setSshKeys vault_config (alRemove vault_config.config.remote.ssh_keys (make_ssh_host_key "host" "pi")))
          { key_cworld with files := fun p => if p = "/keys/pi@host.key" then none else key_cworld.files p },
        OpResult.ok ()) :=
  ⟨(c8_del_ssh_key_behaviour (fun c => c) empty_config empty_cworld "host"
      "pi" "" "").1 rfl,
   ((c8_del_ssh_key_behaviour (fun c => c) vault_config empty_cworld "host"
      "pi" "/keys/pi@host.key" "").2.1 rfl rfl).1,
   (c8_del_ssh_key_behaviour (fun c => c) vault_config key_cworld "host" "pi"
      "/keys/pi@host.key" "KEYMATERIAL").2.2 rfl rfl⟩

/-- C3: `persist()` (`write_bookmarks`) followed by a fresh
`open` (`BookmarksClient.new`) on the same bookmarks file and key file
reproduces the client state exactly (hence identical bookmark names,
addresses, ports, protocols and usernames), provided the serializer
round-trips; and every entry stored with an encrypted password yields
the original plaintext from `get_bookmark`, provided the codec
round-trips. -/
theorem c3_persist_open_round_trip {β : Type} (serialize : UserHosts → β)
    (deserialize : β → Option UserHosts)
    (fromStr : String → Option FileTransferProtocol)
    (encrypt : String → String → String)
    (decrypt : String → String → Option String) (permFail : Bool)
    (st : BookmarksClient) (w : BWorld β) (name : String) (entry : Bookmark)
    (p : String)
    (hser : ∀ h : UserHosts, deserialize (serialize h) = some h)
    (hkey : w.keyFile = some st.key)
    (hcodec : ∀ q : String, decrypt st.key (encrypt st.key q) = some q)
    (hentry : alGet st.hosts.bookmarks name = some entry)
    (hpw : entry.password = some (encrypt st.key p)) :
    BookmarksClient.new serialize deserialize permFail
        (write_bookmarks serialize st w) st.recents_size =
      some (st, write_bookmarks serialize st w) ∧
    get_bookmark fromStr decrypt st name =
      some (entry.address, entry.port,
        (match fromStr entry.protocol with
         | some proto => proto
         | none => FileTransferProtocol.Sftp),
        entry.username, some p) := by
  constructor
  · simp only [BookmarksClient.new, write_bookmarks, load_key, read_bookmarks,
      hkey, hser]
  · simp only [get_bookmark, hentry, hpw, hcodec]

theorem c3_witness :
    BookmarksClient.new (fun x : UserHosts => x) (fun x : UserHosts => some x)
        true (write_bookmarks (fun x : UserHosts => x) pw_client
          ⟨some "testkey", none⟩) pw_client.recents_size =
      some (pw_client, write_bookmarks (fun x : UserHosts => x) pw_client
        ⟨some "testkey", none⟩) ∧
    get_bookmark (fun _ => none) (fun _ c => some c) pw_client "raspberry" =
      some ("192.168.1.31", 22, FileTransferProtocol.Sftp, "pi",
        some "CIPHERTEXT") :=
  c3_persist_open_round_trip (fun x : UserHosts => x)
    (fun x : UserHosts => some x) (fun _ => none) (fun _ q => q)
    (fun _ c => some c) true pw_client ⟨some "testkey", none⟩ "raspberry"
    ⟨"192.168.1.31", 22, "pi", "SFTP", some "CIPHERTEXT"⟩ "CIPHERTEXT"
    (fun _ => rfl) rfl (fun _ => rfl) (by decide) rfl

/-- C5: opening against an existing key file never regenerates the key
(the file contents are the key, verbatim, and the key file is left
unchanged), both when the data file is bootstrapped and when it is
loaded; opening against a missing key file generates exactly one
256-character alphanumeric key and writes it to the key file before
the data file is bootstrapped (`generate_key` returns with the key
written and the data file untouched); and the outcome of the
best-effort permission change has no influence on the result. -/
theorem c5_key_lifecycle {β : Type} (serialize : UserHosts → β)
    (deserialize : β → Option UserHosts) (permFail permFail2 : Bool)
    (bf : Option β) (content : String) (size : Nat) (blob : β)
    (h : UserHosts) (w : BWorld β)
    (hblob : deserialize blob = some h) :
    BookmarksClient.new serialize deserialize permFail
        ⟨some content, none⟩ size =
      some ({ hosts := default_hosts, key := content, recents_size := size },
        ⟨some content, some (serialize default_hosts)⟩) ∧
    BookmarksClient.new serialize deserialize permFail
        ⟨some content, some blob⟩ size =
      some ({ hosts := h, key := content, recents_size := size },
        ⟨some content, some blob⟩) ∧
    BookmarksClient.new serialize deserialize permFail ⟨none, none⟩ size =
      some ((⟨default_hosts, random_alphanumeric_with_len 256, size⟩ :
          BookmarksClient),
        ⟨some (random_alphanumeric_with_len 256),
          some (serialize default_hosts)⟩) ∧
    ((random_alphanumeric_with_len 256).length = 256 ∧
      isAlphanumStr (random_alphanumeric_with_len 256) = true) ∧
    generate_key permFail (⟨none, bf⟩ : BWorld β) =
      (random_alphanumeric_with_len 256,
        ⟨some (random_alphanumeric_with_len 256), bf⟩) ∧
    BookmarksClient.new serialize deserialize permFail w size =
      BookmarksClient.new serialize deserialize permFail2 w size ∧
    generate_key permFail w = generate_key permFail2 w := by
  refine ⟨rfl, ?_, rfl, ⟨rand_len 256, rand_alnum 256⟩, rfl, rfl, rfl⟩
  simp only [BookmarksClient.new, load_key, read_bookmarks, hblob]

theorem c5_witness :
    BookmarksClient.new (fun x : UserHosts => x) (fun x : UserHosts => some x)
        true ⟨some "mykey", none⟩ 16 =
      some ({ hosts := default_hosts, key := "mykey", recents_size := 16 },
        ⟨some "mykey", some default_hosts⟩) ∧
    BookmarksClient.new (fun x : UserHosts => x) (fun x : UserHosts => some x)
        true ⟨none, none⟩ 16 =
      some ((⟨default_hosts, random_alphanumeric_with_len 256, 16⟩ :
          BookmarksClient),
        ⟨some (random_alphanumeric_with_len 256), some default_hosts⟩) ∧
    generate_key true (⟨none, none⟩ : BWorld UserHosts) =
      (random_alphanumeric_with_len 256,
        ⟨some (random_alphanumeric_with_len 256), none⟩) :=
  ⟨(c5_key_lifecycle (fun x : UserHosts => x) (fun x : UserHosts => some x)
      true false none "mykey" 16 default_hosts default_hosts
      ⟨none, none⟩ rfl).1,
   (c5_key_lifecycle (fun x : UserHosts => x) (fun x : UserHosts => some x)
      true false none "mykey" 16 default_hosts default_hosts
      ⟨none, none⟩ rfl).2.2.1,
   (c5_key_lifecycle (fun x : UserHosts => x) (fun x : UserHosts => some x)
      true false none "mykey" 16 default_hosts default_hosts
      ⟨none, none⟩ rfl).2.2.2.2.1⟩

end Termscp
